import Mathlib

/-!
Verification of the snapback-memories repository against its specification.

The development shallowly embeds the relevant program parts:
* `makeApiCall` and its retry policy from `src/lib/api-utils.ts`;
* the demo-data query helpers (`paginateDemoMemories`, `getDemoOnThisDay`,
  `dayOfYear`) from `src/lib/demo-data.ts`;
* `generateMonthSummaries` from `src/lib/mock-data.ts`;
* the ingestion-pipeline components (source resolver, placement planner,
  catalog upsert, run tracker) that the repository documents but whose
  implementation script is not part of the checked sources; these are
  modelled from the specification text.
-/

/-! ## Retrying API call helper (`src/lib/api-utils.ts`) -/

/-- What the `fetch` inside one attempt of `makeApiCall` can produce.
`ok` means `response.ok` held (2xx); `httpError s` means `!response.ok`, which
makes the code throw an `ApiError` carrying `s = response.status`;
`abortError` is the timeout-driven `AbortError`; `netError` is any other
thrown error (for example a connection reset inside `fetch`). -/
inductive FetchOutcome where
  | ok : FetchOutcome
  | httpError : Nat → FetchOutcome
  | abortError : FetchOutcome
  | netError : FetchOutcome
deriving DecidableEq

/-- The error captured as `lastError` in `makeApiCall`'s catch block. -/
inductive CallError where
  | apiError : Nat → CallError
  | abortErr : CallError
  | netErr : CallError
deriving DecidableEq

/-- Turn a fetch outcome into the error the catch block observes (if any). -/
def errorOf : FetchOutcome → Option CallError
  | FetchOutcome.ok => none
  | FetchOutcome.httpError s => some (CallError.apiError s)
  | FetchOutcome.abortError => some CallError.abortErr
  | FetchOutcome.netError => some CallError.netErr

/-- The `break` condition of `makeApiCall`'s retry loop:
`lastError.name === 'AbortError' || (lastError instanceof ApiError &&
lastError.status && lastError.status >= 400 && lastError.status < 500)`.
The `lastError.status &&` truthiness test is the `s ≠ 0` conjunct. -/
def shouldStop : CallError → Bool
  | CallError.apiError s => decide (s ≠ 0 ∧ 400 ≤ s ∧ s < 500)
  | CallError.abortErr => true
  | CallError.netErr => false

/-- Whether `makeApiCall` treats a fetch outcome as retryable: it failed and
the failure does not hit the loop's `break` condition. -/
def retriesOn (o : FetchOutcome) : Bool :=
  match errorOf o with
  | none => false
  | some e => !shouldStop e

instance {ε α : Type} [DecidableEq ε] [DecidableEq α] :
    DecidableEq (Except ε α) := fun a b =>
  match a, b with
  | Except.ok x, Except.ok y =>
    match decEq x y with
    | isTrue h => isTrue (by rw [h])
    | isFalse h => isFalse (fun hh => h (by injection hh))
  | Except.error e, Except.error f =>
    match decEq e f with
    | isTrue h => isTrue (by rw [h])
    | isFalse h => isFalse (fun hh => h (by injection hh))
  | Except.ok _, Except.error _ => isFalse (fun hh => by injection hh)
  | Except.error _, Except.ok _ => isFalse (fun hh => by injection hh)

/-- Full observable trace of one `makeApiCall` invocation: the final result,
how many attempts were made, and the backoff delays scheduled between
consecutive attempts (in order). -/
structure CallTrace where
  result : Except CallError Unit
  attempts : Nat
  delays : List Nat
deriving DecidableEq

/-- The retry loop of `makeApiCall`: `responses attempt` is what the server /
network does on the given (0-based) attempt; `remaining` is how many retries
are still allowed (`retries - attempt` in the source); `delays` accumulates
the scheduled waits `retryDelay * 2 ^ attempt`. -/
def makeApiCallAux (responses : Nat → FetchOutcome) (retryDelay : Nat)
    (attempt remaining : Nat) (delays : List Nat) : CallTrace :=
  match errorOf (responses attempt) with
  | none => ⟨Except.ok (), attempt + 1, delays⟩
  | some e =>
    if shouldStop e then ⟨Except.error e, attempt + 1, delays⟩
    else
      match remaining with
      | 0 => ⟨Except.error e, attempt + 1, delays⟩
      | r + 1 =>
        makeApiCallAux responses retryDelay (attempt + 1) r
          (delays ++ [retryDelay * 2 ^ attempt])

/-- `makeApiCall` from `src/lib/api-utils.ts`, at the level of its retry
behaviour: runs attempts `0, 1, …` until success, a non-retryable error, or
the retry budget is exhausted. -/
def makeApiCall (responses : Nat → FetchOutcome) (retries retryDelay : Nat) :
    CallTrace :=
  makeApiCallAux responses retryDelay 0 retries []

/-- `API_CONFIG.DEFAULT_RETRIES` from `src/lib/constants.ts`. -/
def API_DEFAULT_RETRIES : Nat := 3

/-- `API_CONFIG.DEFAULT_RETRY_DELAY` from `src/lib/constants.ts`. -/
def API_DEFAULT_RETRY_DELAY : Nat := 1000

/-- The failure kinds `makeApiCall` actually retries: a generic (non-abort)
network error such as a connection reset, or an HTTP error whose status falls
outside the 400–499 break test (5xx in particular). -/
def transientKind (o : FetchOutcome) : Prop :=
  o = FetchOutcome.netError ∨
    ∃ s, o = FetchOutcome.httpError s ∧ ¬(s ≠ 0 ∧ 400 ≤ s ∧ s < 500)

/-! ## Ingestion pipeline (modelled from the spec)

The pipeline itself (the Python ingest script listed in the workflow notes)
is not among the checked sources; the following definitions are modelled
from the specification text, faithful to its wording. -/

/-- Modelled from the spec: a capture timestamp in UTC, second precision
(§3 ManifestEntry, §4.3 Placement Planner). -/
structure CaptureTime where
  year : Nat
  month : Nat
  day : Nat
  hour : Nat
  minute : Nat
  second : Nat
deriving DecidableEq

/-- Modelled from the spec: the metadata the Placement Planner consumes —
`(capture timestamp or absence, coordinate or absence, stable_id, extension)`
(§4.3); coordinates are carried as their rendered decimal strings. -/
structure PlacementMeta where
  timestamp : Option CaptureTime
  coord : Option (String × String)
  stable_id : String
  ext : String
deriving DecidableEq

/-- Two-digit zero padding for month/day/hour/minute/second fields. -/
def pad2 (n : Nat) : String :=
  if n < 10 then "0" ++ toString n else toString n

/-- Colon-free second-precision UTC timestamp, as in
`2024-02-22_17-41-19` (§4.3, §8 deterministic-naming example). -/
def timestampSlug (t : CaptureTime) : String :=
  toString t.year ++ "-" ++ pad2 t.month ++ "-" ++ pad2 t.day ++ "_" ++
    pad2 t.hour ++ "-" ++ pad2 t.minute ++ "-" ++ pad2 t.second

/-- The `<lat>_<lon>__` filename segment, omitted when no coordinate exists
(the two consecutive underscores collapse, §4.3). -/
def coordSegment : Option (String × String) → String
  | none => ""
  | some (la, lo) => la ++ "_" ++ lo ++ "__"

/-- Modelled from the spec: §4.3 Placement Planner — bucket under
`year/month` (UTC) with filename
`<timestamp>Z__<lat>_<lon>__<stable_id>.<ext>` when a capture timestamp is
present, else `unknown_date/<stable_id>.<ext>`. -/
def organizedPath (meta : PlacementMeta) : String :=
  match meta.timestamp with
  | some t =>
    toString t.year ++ "/" ++ pad2 t.month ++ "/" ++ timestampSlug t ++ "Z__" ++
      coordSegment meta.coord ++ meta.stable_id ++ "." ++ meta.ext
  | none => "unknown_date/" ++ meta.stable_id ++ "." ++ meta.ext

/-- Modelled from the spec: the per-item failure taxonomy (§7); the
infrastructure-level CatalogWriteFailure is not a per-item kind. -/
inductive FailKind where
  | SourceUnavailable : FailKind
  | AuthRequired : FailKind
  | AmbiguousArchiveLayout : FailKind
  | FlattenTimeout : FailKind
  | PlacementConflict : FailKind
deriving DecidableEq

/-- Modelled from the spec: one manifest entry (§3), identified by its
externally assigned `stable_id`. -/
structure ManifestEntry where
  stable_id : String
  media_kind : String
  timestamp : Option CaptureTime
  coord : Option (String × String)
deriving DecidableEq

/-- Modelled from the spec: a persisted catalog row (§3 CatalogRecord).
`favorite` and `tags` are the user-owned fields. -/
structure CatalogRecord where
  stable_id : String
  media_kind : String
  organized_path : String
  thumbnail_path : Option String
  captured_at : Option CaptureTime
  coord : Option (String × String)
  favorite : Bool
  tags : List String
  size : Nat
  checksum : Option String
deriving DecidableEq

/-- The catalog store: rows keyed by `stable_id`. -/
def Catalog : Type := String → Option CatalogRecord

/-- Modelled from the spec: §4.4 Catalog Store `upsert` — insert if
`stable_id` unseen; otherwise update every field except `favorite` and
`tags`, which persist from the existing row. -/
def upsert (cat : Catalog) (rec : CatalogRecord) : Catalog :=
  fun id =>
    if id = rec.stable_id then
      match cat rec.stable_id with
      | some old => some { rec with favorite := old.favorite, tags := old.tags }
      | none => some rec
    else cat id

/-- The serving layer's favorite mutation against the Catalog Store (§6;
`setFavorite` in `src/lib/api.ts` issues it). -/
def setFavorite (cat : Catalog) (id : String) (fav : Bool) : Catalog :=
  fun i =>
    if i = id then (cat i).map (fun r => { r with favorite := fav }) else cat i

/-- The serving layer's tags mutation against the Catalog Store (§6;
`setTags` in `src/lib/api.ts` issues it). -/
def setTags (cat : Catalog) (id : String) (tg : List String) : Catalog :=
  fun i =>
    if i = id then (cat i).map (fun r => { r with tags := tg }) else cat i

/-- Modelled from the spec: one per-item failure row (§3 ErrorRecord). -/
structure ErrorRecord where
  runId : Nat
  stable_id : String
  stage : FailKind
deriving DecidableEq

/-- Modelled from the spec: terminal status of a run (§4.5). -/
inductive RunStatus where
  | completed : RunStatus
  | aborted : RunStatus
deriving DecidableEq

/-- Modelled from the spec: the observable outcome of one pipeline run
(§3 RunRecord plus the per-run error ledger). -/
structure RunResult where
  runId : Nat
  cataloged : List CatalogRecord
  errors : List ErrorRecord
  attempted : Nat
  status : RunStatus
deriving DecidableEq

/-- Modelled from the spec: §4.6 Pipeline Orchestrator with §5 cooperative
cancellation — drives every entry through the per-item pipeline (`process`),
records each per-item failure, never aborts on them; `cancelAfter = some k`
models cancellation after `k` items, and the run is `completed` exactly when
every item was attempted. -/
def runPipeline (runId : Nat) (entries : List ManifestEntry)
    (process : ManifestEntry → Except FailKind CatalogRecord)
    (cancelAfter : Option Nat) : RunResult :=
  let attempted :=
    match cancelAfter with
    | none => entries
    | some k => entries.take k
  { runId := runId
    cataloged := attempted.filterMap (fun e => (process e).toOption)
    errors := attempted.filterMap (fun e =>
      match process e with
      | Except.error k => some ⟨runId, e.stable_id, k⟩
      | Except.ok _ => none)
    attempted := attempted.length
    status :=
      if attempted.length = entries.length then RunStatus.completed
      else RunStatus.aborted }

/-- Origin tag of a resolved source (§3 ResolvedSource). -/
inductive SourceOrigin where
  | cacheHit : SourceOrigin
  | exportFile : SourceOrigin
  | network : SourceOrigin
deriving DecidableEq

/-- Modelled from the spec: the concrete byte source used for one entry
(§3 ResolvedSource): origin tag plus raw bytes. -/
structure ResolvedSource where
  origin : SourceOrigin
  bytes : List Nat
deriving DecidableEq

/-- Modelled from the spec: the world the Source Resolver sees — a content
cache keyed by `stable_id`, an optionally configured local export root, and
the network (`none` models an unavailable file / failed fetch). -/
structure ResolverEnv where
  cache : String → Option (List Nat)
  exportRoot : Option (String → Option (List Nat))
  network : String → Option (List Nat)

/-- Modelled from the spec: §4.1 Source Resolver — resolution order with
first hit winning: (1) existing cache file, reused verbatim; (2) file in the
configured local export root; (3) network fetch. The second component
records whether the network was contacted. -/
def resolveSource (env : ResolverEnv) (id : String) :
    Except FailKind ResolvedSource × Bool :=
  match env.cache id with
  | some bs => (Except.ok ⟨SourceOrigin.cacheHit, bs⟩, false)
  | none =>
    match env.exportRoot with
    | some ex =>
      match ex id with
      | some bs => (Except.ok ⟨SourceOrigin.exportFile, bs⟩, false)
      | none =>
        match env.network id with
        | some bs => (Except.ok ⟨SourceOrigin.network, bs⟩, true)
        | none => (Except.error FailKind.SourceUnavailable, true)
    | none =>
      match env.network id with
      | some bs => (Except.ok ⟨SourceOrigin.network, bs⟩, true)
      | none => (Except.error FailKind.SourceUnavailable, true)

/-! ## Viewer data model and queries
(`src/types/memory.ts`, `src/lib/demo-data.ts`, `src/lib/mock-data.ts`) -/

/-- `MemoryItem` from `src/types/memory.ts`, restricted to the fields the
verified queries read; `captured_at_utc` carries the parsed epoch
milliseconds (`new Date(m.captured_at_utc).getTime()`). -/
structure MemoryItem where
  id : String
  mtype : String
  captured_at_utc : Int
  year : Nat
  month : Nat
  day : Nat
  favorite : Bool
  tags : List String
deriving DecidableEq

/-- `MonthSummary` from `src/types/memory.ts`. -/
structure MonthSummary where
  year : Nat
  month : Nat
  count : Nat
deriving DecidableEq

/-- `PaginatedResponse<MemoryItem>` from `src/types/memory.ts`. -/
structure PaginatedResponse where
  items : List MemoryItem
  nextCursor : Option String
deriving DecidableEq

/-- The `startIndex` computation of `paginateDemoMemories`:
`cursor ? memories.findIndex((m) => m.id === cursor) : 0`, with `-1`
(not found) falling back to `0`. An empty cursor string is falsy in JS and
therefore behaves like an absent cursor. -/
def paginateStartIndex (memories : List MemoryItem) (cursor : Option String) :
    Nat :=
  match cursor with
  | none => 0
  | some c =>
    if c = "" then 0
    else
      if memories.findIdx (fun m => m.id == c) = memories.length then 0
      else memories.findIdx (fun m => m.id == c)

/-- `paginateDemoMemories` from `src/lib/demo-data.ts` (the same pagination
also appears inline in `MockApiAdapter.getMemories`). -/
def paginateDemoMemories (memories : List MemoryItem) (cursor : Option String)
    (limit : Nat) : PaginatedResponse :=
  let safeLimit := max 1 limit
  let startIndex := paginateStartIndex memories cursor
  { items := (memories.drop startIndex).take safeLimit
    nextCursor :=
      if startIndex + safeLimit < memories.length then
        (memories[startIndex + safeLimit]?).map (fun m => m.id)
      else none }

/-- Iterate `paginateDemoMemories` from the given cursor, following
`nextCursor` and concatenating the pages; `fuel` bounds the number of calls. -/
def paginateAll (memories : List MemoryItem) (limit : Nat) :
    Option String → Nat → List MemoryItem
  | _, 0 => []
  | cursor, fuel + 1 =>
    let page := paginateDemoMemories memories cursor limit
    match page.nextCursor with
    | none => page.items
    | some c => page.items ++ paginateAll memories limit (some c) fuel

/-- The `daysBeforeMonth` table of `dayOfYear` in `src/lib/demo-data.ts`. -/
def daysBeforeMonth : List Int :=
  [0, 31, 59, 90, 120, 151, 181, 212, 243, 273, 304, 334]

/-- `dayOfYear` from `src/lib/demo-data.ts`: approximate (non-leap)
day-of-year for circular date comparison. -/
def dayOfYear (month day : Nat) : Int :=
  daysBeforeMonth.getD (month - 1) 0 + day

/-- The circular day-of-year distance computed inside `getDemoOnThisDay`:
`diff = Math.abs(targetDOY - memoryDOY); min(diff, 365 - diff)`. -/
def circularDiff (targetDOY : Int) (m : MemoryItem) : Int :=
  min (|targetDOY - dayOfYear m.month m.day|)
    (365 - |targetDOY - dayOfYear m.month m.day|)

/-- The comparator of `getDemoOnThisDay`'s sort, as a boolean ordering for a
stable merge sort (ES2019 `Array.prototype.sort` is stable): ascending
circular distance, ties broken by descending capture time. -/
def onThisDayLe (targetDOY : Int) (a b : MemoryItem) : Bool :=
  decide (circularDiff targetDOY a < circularDiff targetDOY b ∨
    (circularDiff targetDOY a = circularDiff targetDOY b ∧
      b.captured_at_utc ≤ a.captured_at_utc))

/-- `getDemoOnThisDay` from `src/lib/demo-data.ts`: rank all memories by
circular distance to the target day (ties: newest first), return those
within the window, falling back to the `min(6, length)` nearest when none
match. -/
def getDemoOnThisDay (memories : List MemoryItem) (month day : Nat)
    (windowDays : Int) : List MemoryItem :=
  let targetDOY := dayOfYear month day
  let ranked := memories.mergeSort (onThisDayLe targetDOY)
  let exactMatches :=
    ranked.filter (fun m => decide (circularDiff targetDOY m ≤ windowDays))
  if exactMatches.isEmpty then ranked.take (min 6 ranked.length)
  else exactMatches

/-- One step of the summary-map construction in `generateMonthSummaries`
(`src/lib/mock-data.ts`): the JS `Map` keyed by `year-month` preserves
insertion order; a fresh key is appended with count 0 and then incremented. -/
def addToSummaries (acc : List MonthSummary) (m : MemoryItem) :
    List MonthSummary :=
  if acc.any (fun s => s.year == m.year && s.month == m.month) then
    acc.map (fun s =>
      if s.year == m.year && s.month == m.month then
        { s with count := s.count + 1 }
      else s)
  else acc ++ [{ year := m.year, month := m.month, count := 1 }]

/-- The comparator of `generateMonthSummaries`' final sort: year descending,
then month descending. -/
def monthSummaryLe (a b : MonthSummary) : Bool :=
  decide (b.year < a.year ∨ (a.year = b.year ∧ b.month ≤ a.month))

/-- `generateMonthSummaries` from `src/lib/mock-data.ts` (both variants of
the file contain the identical function). -/
def generateMonthSummaries (memories : List MemoryItem) : List MonthSummary :=
  (memories.foldl addToSummaries []).mergeSort monthSummaryLe

/-! ## Sample data used by the concrete witnesses -/

/-- A sample catalog row for witnesses. -/
def sampleRow (id : String) : CatalogRecord :=
  ⟨id, "photo", "2024/02/x.jpg", none, none, none, false, [], 1, none⟩

/-- A sample manifest of ten entries. -/
def sampleEntries : List ManifestEntry :=
  (List.range 10).map (fun i => ⟨"m" ++ toString (i + 1), "photo", none, none⟩)

/-- A sample per-item pipeline in which exactly entry `m5` fails with
`AmbiguousArchiveLayout`. -/
def sampleProcess (e : ManifestEntry) : Except FailKind CatalogRecord :=
  if e.stable_id = "m5" then Except.error FailKind.AmbiguousArchiveLayout
  else Except.ok (sampleRow e.stable_id)

/-- Two memories sharing one id (for the pagination counterexample). -/
def dupMemoryA : MemoryItem := ⟨"dup", "photo", 0, 2024, 1, 1, false, []⟩

/-- Second memory with the duplicated id. -/
def dupMemoryB : MemoryItem := ⟨"dup", "photo", 1, 2024, 1, 2, false, []⟩

/-- A memory with a normal id (for the empty-id counterexample). -/
def memX : MemoryItem := ⟨"x", "photo", 0, 2024, 1, 1, false, []⟩

/-- A memory whose id is the empty string. -/
def memEmptyId : MemoryItem := ⟨"", "photo", 1, 2024, 1, 2, false, []⟩

/-- A sample catalog holding one row. -/
def sampleCat : Catalog :=
  fun i => if i = "abc123" then some (sampleRow "abc123") else none

/-- A re-ingestion record for the same id with different non-user fields. -/
def sampleRec : CatalogRecord :=
  ⟨"abc123", "video", "2024/03/y.mp4", none, none, none, false, [], 2, none⟩

/-- A resolver environment where both a cache file and a network source
exist for the same id. -/
def sampleEnv : ResolverEnv :=
  ⟨fun i => if i = "abc123" then some [1, 2, 3] else none, none,
    fun _ => some [9, 9]⟩

/-- A small concrete memory list for witnesses. -/
def sampleMemories : List MemoryItem :=
  [⟨"a", "photo", 30, 2026, 2, 21, true, ["night"]⟩,
   ⟨"b", "video", 20, 2026, 2, 20, false, ["drive"]⟩,
   ⟨"c", "photo", 10, 2025, 11, 3, false, []⟩,
   ⟨"d", "photo", 5, 2021, 12, 31, true, ["new-year"]⟩]

/-! ### Retry-loop lemmas -/

theorem makeApiCallAux_attempts_lb (responses : Nat → FetchOutcome) (d : Nat)
    (remaining : Nat) :
    ∀ (attempt : Nat) (delays : List Nat),
      attempt + 1 ≤ (makeApiCallAux responses d attempt remaining delays).attempts := by
  induction remaining with
  | zero =>
    intro attempt delays
    unfold makeApiCallAux
    cases he : errorOf (responses attempt) with
    | none => simp
    | some e => by_cases hs : shouldStop e <;> simp [hs]
  | succ r ih =>
    intro attempt delays
    unfold makeApiCallAux
    cases he : errorOf (responses attempt) with
    | none => simp
    | some e =>
      by_cases hs : shouldStop e
      · simp [hs]
      · simp only [hs, Bool.false_eq_true, if_false]
        exact Nat.le_trans (Nat.le_succ _) (ih (attempt + 1) _)

theorem makeApiCallAux_attempts_ub (responses : Nat → FetchOutcome) (d : Nat)
    (remaining : Nat) :
    ∀ (attempt : Nat) (delays : List Nat),
      (makeApiCallAux responses d attempt remaining delays).attempts ≤
        attempt + remaining + 1 := by
  induction remaining with
  | zero =>
    intro attempt delays
    unfold makeApiCallAux
    cases he : errorOf (responses attempt) with
    | none => simp
    | some e => by_cases hs : shouldStop e <;> simp [hs]
  | succ r ih =>
    intro attempt delays
    unfold makeApiCallAux
    cases he : errorOf (responses attempt) with
    | none => simp
    | some e =>
      by_cases hs : shouldStop e
      · simp [hs]
      · simp only [hs, Bool.false_eq_true, if_false]
        have := ih (attempt + 1) (delays ++ [d * 2 ^ attempt])
        omega

theorem makeApiCallAux_retried_is_retryable (responses : Nat → FetchOutcome)
    (d : Nat) (remaining : Nat) :
    ∀ (attempt : Nat) (delays : List Nat) (k : Nat), attempt ≤ k →
      k + 1 < (makeApiCallAux responses d attempt remaining delays).attempts →
      retriesOn (responses k) = true := by
  induction remaining with
  | zero =>
    intro attempt delays k hak hk
    unfold makeApiCallAux at hk
    cases he : errorOf (responses attempt) with
    | none => rw [he] at hk; simp at hk; omega
    | some e =>
      rw [he] at hk
      by_cases hs : shouldStop e <;> simp [hs] at hk <;> omega
  | succ r ih =>
    intro attempt delays k hak hk
    unfold makeApiCallAux at hk
    cases he : errorOf (responses attempt) with
    | none => rw [he] at hk; simp at hk; omega
    | some e =>
      rw [he] at hk
      by_cases hs : shouldStop e
      · simp [hs] at hk; omega
      · simp only [hs, Bool.false_eq_true, if_false] at hk
        rcases Nat.eq_or_lt_of_le hak with rfl | hlt
        · simp [retriesOn, he, hs]
        · exact ih (attempt + 1) _ k hlt hk

theorem makeApiCallAux_retryable_is_retried (responses : Nat → FetchOutcome)
    (d : Nat) (remaining : Nat) :
    ∀ (attempt : Nat) (delays : List Nat) (k : Nat), attempt ≤ k →
      k < (makeApiCallAux responses d attempt remaining delays).attempts →
      k < attempt + remaining →
      retriesOn (responses k) = true →
      k + 1 < (makeApiCallAux responses d attempt remaining delays).attempts := by
  induction remaining with
  | zero =>
    intro attempt delays k hak hk0 hlt hr
    omega
  | succ r ih =>
    intro attempt delays k hak hk0 hlt hr
    unfold makeApiCallAux at hk0 ⊢
    cases he : errorOf (responses attempt) with
    | none =>
      rw [he] at hk0
      simp at hk0
      have hke : k = attempt := by omega
      subst hke
      simp [retriesOn, he] at hr
    | some e =>
      rw [he] at hk0
      by_cases hs : shouldStop e
      · simp [hs] at hk0
        have hke : k = attempt := by omega
        subst hke
        simp [retriesOn, he, hs] at hr
      · simp only [hs, Bool.false_eq_true, if_false] at hk0 ⊢
        rcases Nat.eq_or_lt_of_le hak with rfl | hlt2
        · have := makeApiCallAux_attempts_lb responses d r (attempt + 1)
            (delays ++ [d * 2 ^ attempt])
          omega
        · exact ih (attempt + 1) _ k hlt2 hk0 (by omega) hr

theorem makeApiCallAux_delays_spec (responses : Nat → FetchOutcome) (d : Nat)
    (remaining : Nat) :
    ∀ (attempt : Nat) (delays : List Nat),
      delays.length = attempt →
      (∀ i, i < delays.length → delays[i]? = some (d * 2 ^ i)) →
      ((makeApiCallAux responses d attempt remaining delays).delays.length + 1 =
        (makeApiCallAux responses d attempt remaining delays).attempts) ∧
      ∀ i, i < (makeApiCallAux responses d attempt remaining delays).delays.length →
        (makeApiCallAux responses d attempt remaining delays).delays[i]? =
          some (d * 2 ^ i) := by
  induction remaining with
  | zero =>
    intro attempt delays hlen hget
    unfold makeApiCallAux
    cases he : errorOf (responses attempt) with
    | none => exact ⟨by simpa using hlen, by simpa using hget⟩
    | some e =>
      by_cases hs : shouldStop e <;>
        simp only [hs, Bool.false_eq_true, if_true, if_false] <;>
        exact ⟨by simpa using hlen, by simpa using hget⟩
  | succ r ih =>
    intro attempt delays hlen hget
    unfold makeApiCallAux
    cases he : errorOf (responses attempt) with
    | none => exact ⟨by simpa using hlen, by simpa using hget⟩
    | some e =>
      by_cases hs : shouldStop e
      · simp only [hs, if_true]
        exact ⟨by simpa using hlen, by simpa using hget⟩
      · simp only [hs, Bool.false_eq_true, if_false]
        refine ih (attempt + 1) (delays ++ [d * 2 ^ attempt]) (by simp [hlen]) ?_
        intro i h
        rw [List.getElem?_append]
        split
        · exact hget i (by assumption)
        · have hi : i = delays.length := by
            simp at h
            omega
          subst hi
          simp [hlen]

theorem retriesOn_iff (o : FetchOutcome) : retriesOn o = true ↔ transientKind o := by
  cases o with
  | ok => simp [retriesOn, errorOf, transientKind]
  | httpError s =>
    simp [retriesOn, errorOf, shouldStop, transientKind]
    omega
  | abortError => simp [retriesOn, errorOf, shouldStop, transientKind]
  | netError => simp [retriesOn, errorOf, shouldStop, transientKind]

/-- C1: with the default retry budget of 3, a server answering HTTP 500 on the
first three attempts and HTTP 200 on the fourth yields a successful call after
exactly four attempts (the 5xx failures are retried within the budget), while
a server answering HTTP 403 on the first attempt makes the call fail
immediately after that single attempt, with zero further attempts made. -/
theorem serverRetryScenarios (responses : Nat → FetchOutcome) (retryDelay : Nat) :
    ((responses 0 = FetchOutcome.httpError 500 ∧
      responses 1 = FetchOutcome.httpError 500 ∧
      responses 2 = FetchOutcome.httpError 500 ∧
      responses 3 = FetchOutcome.ok) →
      (makeApiCall responses API_DEFAULT_RETRIES retryDelay).result = Except.ok () ∧
      (makeApiCall responses API_DEFAULT_RETRIES retryDelay).attempts = 4) ∧
    (responses 0 = FetchOutcome.httpError 403 →
      (makeApiCall responses API_DEFAULT_RETRIES retryDelay).result =
        Except.error (CallError.apiError 403) ∧
      (makeApiCall responses API_DEFAULT_RETRIES retryDelay).attempts = 1) := by
  constructor
  · rintro ⟨h0, h1, h2, h3⟩
    simp [makeApiCall, API_DEFAULT_RETRIES, makeApiCallAux, h0, h1, h2, h3,
      errorOf, shouldStop]
  · intro h0
    simp [makeApiCall, API_DEFAULT_RETRIES, makeApiCallAux, h0, errorOf, shouldStop]

/-- Witness for C1: the two scenarios at concrete response schedules. -/
theorem serverRetryScenariosWitness :
    (makeApiCall (fun n => if n < 3 then FetchOutcome.httpError 500 else FetchOutcome.ok)
        API_DEFAULT_RETRIES 1000).result = Except.ok () ∧
    (makeApiCall (fun _ => FetchOutcome.httpError 403)
        API_DEFAULT_RETRIES 1000).attempts = 1 :=
  ⟨((serverRetryScenarios
      (fun n => if n < 3 then FetchOutcome.httpError 500 else FetchOutcome.ok)
      1000).1 (by decide)).1,
   ((serverRetryScenarios (fun _ => FetchOutcome.httpError 403) 1000).2 rfl).2⟩

/-- C2 counterexample: a timeout (abort) is not retried even though three
retries remain — only one attempt is made — and an HTTP 300 response, which
is neither a connection reset, a timeout, nor a 5xx, is retried three times. -/
theorem retryKindsCounterexample :
    (makeApiCall (fun _ => FetchOutcome.abortError) 3 1000).attempts = 1 ∧
    (makeApiCall (fun _ => FetchOutcome.httpError 300) 3 1000).attempts = 4 := by
  decide

/-- C2 (amended): retries apply exactly to the failures the code treats as
transient — non-abort network failures (connection resets) and HTTP error
statuses outside 400–499 (5xx in particular): whenever an attempt `k` is made
and fails with such a kind while retry attempts remain, attempt `k + 1` is
made; and attempt `k + 1` is only ever made when attempt `k` failed with such
a kind. Timeouts (aborts) and 4xx responses are never retried. -/
theorem retryOnlyTransientKinds (responses : Nat → FetchOutcome)
    (retries retryDelay k : Nat) :
    (k + 1 < (makeApiCall responses retries retryDelay).attempts →
      transientKind (responses k)) ∧
    (k < (makeApiCall responses retries retryDelay).attempts → k < retries →
      transientKind (responses k) →
      k + 1 < (makeApiCall responses retries retryDelay).attempts) := by
  constructor
  · intro h
    exact (retriesOn_iff _).mp
      (makeApiCallAux_retried_is_retryable responses retryDelay retries 0 [] k
        (Nat.zero_le k) h)
  · intro h1 h2 h3
    exact makeApiCallAux_retryable_is_retried responses retryDelay retries 0 [] k
      (Nat.zero_le k) h1 (by omega) ((retriesOn_iff _).mpr h3)

/-- Witness for C2: a connection-reset style failure with budget remaining is
in fact retried. -/
theorem retryOnlyTransientKindsWitness :
    1 < (makeApiCall (fun _ => FetchOutcome.netError) 3 1000).attempts :=
  (retryOnlyTransientKinds (fun _ => FetchOutcome.netError) 3 1000 0).2
    (by decide) (by decide) (Or.inl rfl)

/-- C7: a call with retry budget `retries` makes at most `retries + 1`
attempts; one backoff delay is scheduled between each pair of consecutive
attempts, and the delay at (0-based) position `i` — the wait before 1-based
attempt `i + 2`, i.e. before attempt `k + 1` with `k = i + 1` — equals
`retryDelay * 2 ^ i = retryDelay * 2 ^ (k - 1)`. -/
theorem retryBoundedExponentialBackoff (responses : Nat → FetchOutcome)
    (retries retryDelay : Nat) :
    (makeApiCall responses retries retryDelay).attempts ≤ retries + 1 ∧
    (makeApiCall responses retries retryDelay).delays.length + 1 =
      (makeApiCall responses retries retryDelay).attempts ∧
    ∀ i, i < (makeApiCall responses retries retryDelay).delays.length →
      (makeApiCall responses retries retryDelay).delays[i]? =
        some (retryDelay * 2 ^ i) := by
  refine ⟨?_, ?_⟩
  · have := makeApiCallAux_attempts_ub responses retryDelay retries 0 []
    simpa [makeApiCall] using this
  · exact makeApiCallAux_delays_spec responses retryDelay retries 0 [] rfl (by simp)

/-- Witness for C7: concrete doubling backoff on an always-failing call. -/
theorem retryBoundedExponentialBackoffWitness :
    (makeApiCall (fun _ => FetchOutcome.netError) 3 1000).delays[1]? =
      some (1000 * 2 ^ 1) :=
  (retryBoundedExponentialBackoff (fun _ => FetchOutcome.netError) 3 1000).2.2 1
    (by decide)

/-! ### Pipeline theorems -/

/-- C3: the placement path is a pure function of the entry metadata: the
sample entry (timestamp 2024-02-22T17:41:19Z, coordinate (34.0522,
-118.2437), id abc123, extension jpg) is placed at
`2024/02/2024-02-22_17-41-19Z__34.0522_-118.2437__abc123.jpg`; the same entry
with no timestamp is placed at `unknown_date/abc123.jpg`; and every organized
path follows the dated format
`YYYY/MM/<timestamp>Z__<lat>_<lon>__<stable_id>.<ext>` (coordinate segment
omitted when absent) or `unknown_date/<stable_id>.<ext>`. -/
theorem organizedPathDeterministic :
    organizedPath ⟨some ⟨2024, 2, 22, 17, 41, 19⟩,
        some ("34.0522", "-118.2437"), "abc123", "jpg"⟩ =
      "2024/02/2024-02-22_17-41-19Z__34.0522_-118.2437__abc123.jpg" ∧
    organizedPath ⟨none, some ("34.0522", "-118.2437"), "abc123", "jpg"⟩ =
      "unknown_date/abc123.jpg" ∧
    ∀ meta : PlacementMeta,
      (∃ t, meta.timestamp = some t ∧
        organizedPath meta =
          toString t.year ++ "/" ++ pad2 t.month ++ "/" ++ timestampSlug t ++
            "Z__" ++ coordSegment meta.coord ++ meta.stable_id ++ "." ++
            meta.ext) ∨
      (meta.timestamp = none ∧
        organizedPath meta =
          "unknown_date/" ++ meta.stable_id ++ "." ++ meta.ext) := by
  refine ⟨rfl, rfl, ?_⟩
  intro meta
  cases ht : meta.timestamp with
  | none => exact Or.inr ⟨rfl, by simp [organizedPath, ht]⟩
  | some t => exact Or.inl ⟨t, rfl, by simp [organizedPath, ht]⟩

/-- C4: after user actions set `favorite` and `tags` on a catalog row, a
later ingestion upsert of the same `stable_id` leaves those two fields
unchanged while every non-user-owned field is refreshed from the new
ingestion result. -/
theorem upsertPreservesUserFields (cat : Catalog) (rec : CatalogRecord)
    (r0 : CatalogRecord) (fav : Bool) (tg : List String)
    (h : cat rec.stable_id = some r0) :
    ∃ row,
      upsert (setTags (setFavorite cat rec.stable_id fav) rec.stable_id tg) rec
          rec.stable_id = some row ∧
      row.favorite = fav ∧ row.tags = tg ∧
      row.media_kind = rec.media_kind ∧
      row.organized_path = rec.organized_path ∧
      row.thumbnail_path = rec.thumbnail_path ∧
      row.captured_at = rec.captured_at ∧
      row.coord = rec.coord ∧
      row.size = rec.size ∧
      row.checksum = rec.checksum := by
  refine ⟨{ rec with favorite := fav, tags := tg }, ?_,
    rfl, rfl, rfl, rfl, rfl, rfl, rfl, rfl, rfl⟩
  simp [upsert, setTags, setFavorite, h]

/-- Witness for C4: a concrete user-marked row survives a re-ingestion
upsert with fresh non-user fields. -/
theorem upsertPreservesUserFieldsWitness :
    ∃ row,
      upsert (setTags (setFavorite sampleCat sampleRec.stable_id true)
          sampleRec.stable_id ["a"]) sampleRec sampleRec.stable_id =
        some row ∧
      row.favorite = true ∧ row.tags = ["a"] ∧
      row.media_kind = sampleRec.media_kind ∧
      row.organized_path = sampleRec.organized_path ∧
      row.thumbnail_path = sampleRec.thumbnail_path ∧
      row.captured_at = sampleRec.captured_at ∧
      row.coord = sampleRec.coord ∧
      row.size = sampleRec.size ∧
      row.checksum = sampleRec.checksum :=
  upsertPreservesUserFields sampleCat sampleRec (sampleRow "abc123") true ["a"]
    (by simp [sampleCat, sampleRec])

/-- C6: source resolution stops at the first hit: whenever a cache file
exists for a `stable_id`, resolution returns exactly that file (verbatim,
with cache origin) and the network is not contacted, regardless of what the
export root or the network would offer. -/
theorem cacheFirstResolution (env : ResolverEnv) (id : String) (bs : List Nat)
    (h : env.cache id = some bs) :
    resolveSource env id = (Except.ok ⟨SourceOrigin.cacheHit, bs⟩, false) := by
  simp [resolveSource, h]

/-- Witness for C6: a concrete environment where both a cache file and a
network source exist. -/
theorem cacheFirstResolutionWitness :
    resolveSource sampleEnv "abc123" =
      (Except.ok ⟨SourceOrigin.cacheHit, [1, 2, 3]⟩, false) :=
  cacheFirstResolution sampleEnv "abc123" [1, 2, 3] (by simp [sampleEnv])

theorem exceptToOption_isSome {ε α : Type} (x : Except ε α)
    (h : x.toOption.isSome = true) : ∃ a, x = Except.ok a := by
  cases x with
  | ok a => exact ⟨a, rfl⟩
  | error e => simp [Except.toOption] at h

/-- C5: per-item failures never abort a run: for any manifest of 10 entries
where exactly entry #5 (index 4) fails with `AmbiguousArchiveLayout` and all
others succeed, the run catalogs the other 9 entries, finishes `completed`,
and records exactly one error. -/
theorem partialFailureIsolation (runId : Nat) (entries : List ManifestEntry)
    (process : ManifestEntry → Except FailKind CatalogRecord)
    (h10 : entries.length = 10)
    (hspec : ∀ i, (h : i < entries.length) →
      if i = 4 then
        process entries[i] = Except.error FailKind.AmbiguousArchiveLayout
      else ((process entries[i]).toOption).isSome = true) :
    (runPipeline runId entries process none).cataloged.length = 9 ∧
    (runPipeline runId entries process none).status = RunStatus.completed ∧
    (runPipeline runId entries process none).errors.length = 1 := by
  obtain ⟨e0, t0, rfl⟩ := List.exists_of_length_succ entries h10
  have ha : t0.length = 9 := by simp at h10; omega
  obtain ⟨e1, t1, rfl⟩ := List.exists_of_length_succ t0 ha
  have hb : t1.length = 8 := by simp at ha; omega
  obtain ⟨e2, t2, rfl⟩ := List.exists_of_length_succ t1 hb
  have hc : t2.length = 7 := by simp at hb; omega
  obtain ⟨e3, t3, rfl⟩ := List.exists_of_length_succ t2 hc
  have hd : t3.length = 6 := by simp at hc; omega
  obtain ⟨e4, t4, rfl⟩ := List.exists_of_length_succ t3 hd
  have hf : t4.length = 5 := by simp at hd; omega
  obtain ⟨e5, t5, rfl⟩ := List.exists_of_length_succ t4 hf
  have hg : t5.length = 4 := by simp at hf; omega
  obtain ⟨e6, t6, rfl⟩ := List.exists_of_length_succ t5 hg
  have hh : t6.length = 3 := by simp at hg; omega
  obtain ⟨e7, t7, rfl⟩ := List.exists_of_length_succ t6 hh
  have hi : t7.length = 2 := by simp at hh; omega
  obtain ⟨e8, t8, rfl⟩ := List.exists_of_length_succ t7 hi
  have hj : t8.length = 1 := by simp at hi; omega
  obtain ⟨e9, t9, rfl⟩ := List.exists_of_length_succ t8 hj
  obtain rfl : t9 = [] := by simpa using hj
  have h0 := hspec 0 (by simp)
  have h1 := hspec 1 (by simp)
  have h2 := hspec 2 (by simp)
  have h3 := hspec 3 (by simp)
  have h4 := hspec 4 (by simp)
  have h5 := hspec 5 (by simp)
  have h6 := hspec 6 (by simp)
  have h7 := hspec 7 (by simp)
  have h8 := hspec 8 (by simp)
  have h9 := hspec 9 (by simp)
  simp at h0 h1 h2 h3 h4 h5 h6 h7 h8 h9
  obtain ⟨r0, hr0⟩ := exceptToOption_isSome _ h0
  obtain ⟨r1, hr1⟩ := exceptToOption_isSome _ h1
  obtain ⟨r2, hr2⟩ := exceptToOption_isSome _ h2
  obtain ⟨r3, hr3⟩ := exceptToOption_isSome _ h3
  obtain ⟨r5, hr5⟩ := exceptToOption_isSome _ h5
  obtain ⟨r6, hr6⟩ := exceptToOption_isSome _ h6
  obtain ⟨r7, hr7⟩ := exceptToOption_isSome _ h7
  obtain ⟨r8, hr8⟩ := exceptToOption_isSome _ h8
  obtain ⟨r9, hr9⟩ := exceptToOption_isSome _ h9
  simp [runPipeline, hr0, hr1, hr2, hr3, h4, hr5, hr6, hr7, hr8, hr9,
    Except.toOption]

/-- Witness for C5: the concrete ten-entry manifest in which `m5` fails. -/
theorem partialFailureIsolationWitness :
    (runPipeline 1 sampleEntries sampleProcess none).cataloged.length = 9 ∧
    (runPipeline 1 sampleEntries sampleProcess none).status =
      RunStatus.completed ∧
    (runPipeline 1 sampleEntries sampleProcess none).errors.length = 1 :=
  partialFailureIsolation 1 sampleEntries sampleProcess (by decide) (by decide)

/-! ### Pagination lemmas -/

theorem findIdx_getElem_id (memories : List MemoryItem)
    (hids : (memories.map (fun m => m.id)).Nodup) (j : Nat)
    (hj : j < memories.length) :
    memories.findIdx (fun m => m.id == memories[j].id) = j := by
  induction memories generalizing j with
  | nil => simp at hj
  | cons a l ih =>
    simp only [List.map_cons, List.nodup_cons] at hids
    obtain ⟨ha, hl⟩ := hids
    cases j with
    | zero => simp [List.findIdx_cons]
    | succ k =>
      have hk : k < l.length := by simp at hj; omega
      have hmem : l[k].id ∈ l.map (fun m => m.id) :=
        List.mem_map.mpr ⟨l[k], List.getElem_mem hk, rfl⟩
      have hne : (a.id == l[k].id) = false := by
        simp only [beq_eq_false_iff_ne, ne_eq]
        intro heq
        rw [heq] at ha
        exact ha hmem
      rw [List.getElem_cons_succ, List.findIdx_cons, hne]
      simp [ih hl k hk]

theorem paginateStartIndex_le (memories : List MemoryItem)
    (cursor : Option String) :
    paginateStartIndex memories cursor ≤ memories.length := by
  cases cursor with
  | none => simp [paginateStartIndex]
  | some c =>
    simp only [paginateStartIndex]
    by_cases hc : c = ""
    · simp [hc]
    · simp only [hc, if_false]
      by_cases hidx : memories.findIdx (fun m => m.id == c) = memories.length
      · simp [hidx]
      · simp only [hidx, if_false]
        exact List.findIdx_le_length (fun (m : MemoryItem) => m.id == c)

theorem paginateStartIndex_getElem (memories : List MemoryItem)
    (hids : (memories.map (fun m => m.id)).Nodup)
    (hne : ∀ m ∈ memories, m.id ≠ "") (j : Nat) (hj : j < memories.length) :
    paginateStartIndex memories (some memories[j].id) = j := by
  have hid : memories[j].id ≠ "" := hne memories[j] (List.getElem_mem hj)
  have hfind := findIdx_getElem_id memories hids j hj
  simp only [paginateStartIndex, hid, if_false, hfind]
  simp [Nat.ne_of_lt hj]

theorem paginateStartIndex_notMem (memories : List MemoryItem) (c : String)
    (h : ∀ m ∈ memories, m.id ≠ c) :
    paginateStartIndex memories (some c) = 0 := by
  simp only [paginateStartIndex]
  by_cases hc : c = ""
  · simp [hc]
  · simp only [hc, if_false]
    have : memories.findIdx (fun m => m.id == c) = memories.length :=
      List.findIdx_eq_length.mpr (fun m hm => by simpa using h m hm)
    simp [this]

theorem paginate_nextCursor_eq (memories : List MemoryItem)
    (cursor : Option String) (limit : Nat) :
    (paginateDemoMemories memories cursor limit).nextCursor =
      (memories[paginateStartIndex memories cursor +
        (paginateDemoMemories memories cursor limit).items.length]?).map
        (fun m => m.id) := by
  have hs := paginateStartIndex_le memories cursor
  simp only [paginateDemoMemories, List.length_take, List.length_drop]
  by_cases h : paginateStartIndex memories cursor + max 1 limit < memories.length
  · have hmin : min (max 1 limit)
        (memories.length - paginateStartIndex memories cursor) = max 1 limit := by
      omega
    simp [h, hmin]
  · have hmin : paginateStartIndex memories cursor + min (max 1 limit)
        (memories.length - paginateStartIndex memories cursor) =
        memories.length := by omega
    simp only [h, if_false]
    rw [hmin, List.getElem?_eq_none (Nat.le_refl _)]
    rfl

theorem paginateAll_from (memories : List MemoryItem) (limit : Nat)
    (hids : (memories.map (fun m => m.id)).Nodup)
    (hne : ∀ m ∈ memories, m.id ≠ "") :
    ∀ (fuel j : Nat) (cursor : Option String),
      paginateStartIndex memories cursor = j → j < memories.length →
      memories.length - j ≤ fuel * max 1 limit →
      paginateAll memories limit cursor fuel = memories.drop j := by
  intro fuel
  induction fuel with
  | zero =>
    intro j cursor hsj hj hle
    simp only [Nat.zero_mul, Nat.le_zero] at hle
    omega
  | succ f ih =>
    intro j cursor hsj hj hle
    have hitems : (paginateDemoMemories memories cursor limit).items =
        (memories.drop j).take (max 1 limit) := by
      simp [paginateDemoMemories, hsj]
    by_cases hcase : j + max 1 limit < memories.length
    · have hnext : (paginateDemoMemories memories cursor limit).nextCursor =
          some memories[j + max 1 limit].id := by
        simp [paginateDemoMemories, hsj, hcase, List.getElem?_eq_getElem hcase]
      have hfuel : memories.length - (j + max 1 limit) ≤ f * max 1 limit := by
        have hmul : (f + 1) * max 1 limit = f * max 1 limit + max 1 limit := by
          ring
        omega
      simp only [paginateAll, hnext, hitems]
      rw [ih (j + max 1 limit) (some memories[j + max 1 limit].id)
        (paginateStartIndex_getElem memories hids hne _ hcase) hcase hfuel]
      rw [← List.drop_drop]
      exact List.take_append_drop _ _
    · have hnext : (paginateDemoMemories memories cursor limit).nextCursor =
          none := by
        simp [paginateDemoMemories, hsj, hcase]
      have hlen2 : (memories.drop j).length ≤ max 1 limit := by
        simp only [List.length_drop]
        omega
      simp only [paginateAll, hnext, hitems]
      exact List.take_of_length_le hlen2

/-- C8 (amended): for every list of memories with pairwise-distinct, nonempty
ids, optional cursor and limit: the returned page is the contiguous slice of
the list starting at the index of the cursor's id (or at index 0 when the
cursor is absent or its id is not in the list), of length at most
`max 1 limit`; `nextCursor` is the id of the element immediately following
the slice, absent exactly when no element remains; and iterating from no
cursor through successive `nextCursor` values yields every element exactly
once, in order. (The original claim fails when ids repeat or an id is the
empty string, which JS treats as an absent cursor.) -/
theorem paginateEnumeratesExactlyOnce (memories : List MemoryItem)
    (limit : Nat) (hids : (memories.map (fun m => m.id)).Nodup)
    (hne : ∀ m ∈ memories, m.id ≠ "") :
    (paginateDemoMemories memories none limit).items =
        memories.take (max 1 limit) ∧
    (∀ c, (∀ m ∈ memories, m.id ≠ c) →
      (paginateDemoMemories memories (some c) limit).items =
        memories.take (max 1 limit)) ∧
    (∀ j, (hj : j < memories.length) →
      (paginateDemoMemories memories (some memories[j].id) limit).items =
        (memories.drop j).take (max 1 limit)) ∧
    (∀ cursor, (paginateDemoMemories memories cursor limit).items.length ≤
      max 1 limit) ∧
    (∀ cursor, (paginateDemoMemories memories cursor limit).nextCursor =
      (memories[paginateStartIndex memories cursor +
        (paginateDemoMemories memories cursor limit).items.length]?).map
        (fun m => m.id)) ∧
    paginateAll memories limit none (memories.length + 1) = memories := by
  refine ⟨?_, ?_, ?_, ?_, ?_, ?_⟩
  · simp [paginateDemoMemories, paginateStartIndex]
  · intro c hc
    simp [paginateDemoMemories, paginateStartIndex_notMem memories c hc]
  · intro j hj
    simp [paginateDemoMemories,
      paginateStartIndex_getElem memories hids hne j hj]
  · intro cursor
    simp only [paginateDemoMemories, List.length_take, List.length_drop]
    omega
  · intro cursor
    exact paginate_nextCursor_eq memories cursor limit
  · by_cases hnil : memories = []
    · subst hnil
      simp [paginateAll, paginateDemoMemories, paginateStartIndex]
    · have hlen : 0 < memories.length := List.length_pos.mpr hnil
      have hL : 1 ≤ max 1 limit := le_max_left 1 limit
      have h2 : memories.length ≤ memories.length * max 1 limit :=
        Nat.le_mul_of_pos_right _ (by omega)
      have hmul : (memories.length + 1) * max 1 limit =
          memories.length * max 1 limit + max 1 limit := by ring
      have := paginateAll_from memories limit hids hne (memories.length + 1) 0
        none rfl hlen (by omega)
      simpa using this

/-- C8 counterexample: with a duplicated id, iterating through successive
cursors never yields the second copy (the claim promises every element
exactly once); and with an empty-string id, the page for cursor `""` starts
at index 0 although the cursor's id sits at index 1. -/
theorem paginateCounterexamples :
    (dupMemoryB ∈ [dupMemoryA, dupMemoryB] ∧
      dupMemoryB ∉ paginateAll [dupMemoryA, dupMemoryB] 1 none
        ([dupMemoryA, dupMemoryB].length + 1)) ∧
    (memEmptyId.id = "" ∧ memEmptyId ∈ [memX, memEmptyId] ∧
      [memX, memEmptyId].findIdx (fun m => m.id == memEmptyId.id) = 1 ∧
      (paginateDemoMemories [memX, memEmptyId] (some memEmptyId.id) 5).items ≠
        ([memX, memEmptyId].drop 1).take (max 1 5)) := by
  decide

/-- Witness for C8: iterating the concrete four-memory list with page size 1
returns it in full, in order. -/
theorem paginateEnumeratesExactlyOnceWitness :
    paginateAll sampleMemories 1 none (sampleMemories.length + 1) =
      sampleMemories :=
  (paginateEnumeratesExactlyOnce sampleMemories 1 (by decide)
    (by decide)).2.2.2.2.2

/-! ### On-this-day lemmas -/

theorem onThisDayLe_trans (t : Int) (a b c : MemoryItem)
    (hab : onThisDayLe t a b = true) (hbc : onThisDayLe t b c = true) :
    onThisDayLe t a c = true := by
  simp only [onThisDayLe, decide_eq_true_eq] at hab hbc ⊢
  omega

theorem onThisDayLe_total (t : Int) (a b : MemoryItem) :
    (onThisDayLe t a b || onThisDayLe t b a) = true := by
  simp only [onThisDayLe, Bool.or_eq_true, decide_eq_true_eq]
  omega

/-- C9: for every non-empty memory list, target month/day and window `w`, the
on-this-day result is non-empty and ordered by circular day-of-year distance
(ties: newest first); when some memory lies within the window the result is
exactly (a permutation of) the memories at circular distance at most `w`;
otherwise the `min 6 length` nearest memories are returned. -/
theorem onThisDayWindowSafe (memories : List MemoryItem) (month day : Nat)
    (w : Int) (hne : memories ≠ []) :
    getDemoOnThisDay memories month day w ≠ [] ∧
    List.Pairwise (fun a b =>
      circularDiff (dayOfYear month day) a <
          circularDiff (dayOfYear month day) b ∨
        (circularDiff (dayOfYear month day) a =
            circularDiff (dayOfYear month day) b ∧
          b.captured_at_utc ≤ a.captured_at_utc))
      (getDemoOnThisDay memories month day w) ∧
    ((∃ m ∈ memories, circularDiff (dayOfYear month day) m ≤ w) →
      (getDemoOnThisDay memories month day w).Perm
        (memories.filter
          (fun m => decide (circularDiff (dayOfYear month day) m ≤ w)))) ∧
    ((∀ m ∈ memories, ¬circularDiff (dayOfYear month day) m ≤ w) →
      (getDemoOnThisDay memories month day w).length =
          min 6 memories.length ∧
      ∃ rest, (getDemoOnThisDay memories month day w ++ rest).Perm memories ∧
        ∀ a ∈ getDemoOnThisDay memories month day w, ∀ b ∈ rest,
          circularDiff (dayOfYear month day) a ≤
            circularDiff (dayOfYear month day) b) := by
  have hperm :
      (memories.mergeSort (onThisDayLe (dayOfYear month day))).Perm memories :=
    List.mergeSort_perm memories (onThisDayLe (dayOfYear month day))
  have hsorted : List.Pairwise
      (fun a b => onThisDayLe (dayOfYear month day) a b = true)
      (memories.mergeSort (onThisDayLe (dayOfYear month day))) :=
    List.sorted_mergeSort (onThisDayLe_trans (dayOfYear month day))
      (onThisDayLe_total (dayOfYear month day)) memories
  have hsortedProp : List.Pairwise (fun a b =>
      circularDiff (dayOfYear month day) a <
          circularDiff (dayOfYear month day) b ∨
        (circularDiff (dayOfYear month day) a =
            circularDiff (dayOfYear month day) b ∧
          b.captured_at_utc ≤ a.captured_at_utc))
      (memories.mergeSort (onThisDayLe (dayOfYear month day))) := by
    refine hsorted.imp ?_
    intro a b hab
    simpa [onThisDayLe, decide_eq_true_eq] using hab
  simp only [getDemoOnThisDay]
  set R := memories.mergeSort (onThisDayLe (dayOfYear month day)) with hR
  have hRlen : R.length = memories.length := hperm.length_eq
  have hmemlen : 0 < memories.length := List.length_pos.mpr hne
  by_cases hmatch :
      (R.filter
        (fun m => decide (circularDiff (dayOfYear month day) m ≤ w))).isEmpty =
        true
  · have hnilf := List.isEmpty_iff.mp hmatch
    have hnofit := List.filter_eq_nil_iff.mp hnilf
    simp only [hmatch, if_true]
    refine ⟨?_, ?_, ?_, ?_⟩
    · intro hcontra
      have := congrArg List.length hcontra
      simp only [List.length_take, List.length_nil] at this
      omega
    · exact hsortedProp.sublist (List.take_sublist _ _)
    · rintro ⟨m, hm, hmw⟩
      exact absurd (by simpa using hmw)
        (by simpa using hnofit m (hperm.mem_iff.mpr hm))
    · intro hnone
      refine ⟨?_, R.drop (min 6 R.length), ?_, ?_⟩
      · simp only [List.length_take]
        omega
      · rw [List.take_append_drop]
        exact hperm
      · have hsplit := hsortedProp
        rw [← List.take_append_drop (min 6 R.length) R] at hsplit
        obtain ⟨-, -, hcross⟩ := List.pairwise_append.mp hsplit
        intro a ha b hb
        rcases hcross a ha b hb with h | ⟨h, -⟩
        · omega
        · omega
  · have hnenil := List.isEmpty_eq_false.mp (Bool.not_eq_true _ ▸ hmatch)
    simp only [hmatch, if_false]
    refine ⟨hnenil, ?_, ?_, ?_⟩
    · exact hsortedProp.filter _
    · intro hexists
      exact List.Perm.filter _ hperm
    · intro hnone
      exfalso
      refine hnenil (List.filter_eq_nil_iff.mpr ?_)
      intro a haR
      simpa using hnone a (hperm.mem_iff.mp haR)

/-- Witness for C9: the concrete four-memory list around February 21. -/
theorem onThisDayWindowSafeWitness :
    getDemoOnThisDay sampleMemories 2 21 3 ≠ [] :=
  (onThisDayWindowSafe sampleMemories 2 21 3 (by decide)).1

/-! ### Month-summary lemmas -/

theorem sum_map_count_update (acc : List MonthSummary) (m : MemoryItem) :
    ((acc.map (fun s =>
        if s.year == m.year && s.month == m.month then
          { s with count := s.count + 1 }
        else s)).map (fun s => s.count)).sum =
      (acc.map (fun s => s.count)).sum +
        acc.countP (fun s => s.year == m.year && s.month == m.month) := by
  induction acc with
  | nil => simp
  | cons a l ih =>
    by_cases ha : (a.year == m.year && a.month == m.month) = true
    · simp only [List.map_cons, List.sum_cons, List.countP_cons, ha, if_true]
      omega
    · simp only [List.map_cons, List.sum_cons, List.countP_cons, ha,
        Bool.false_eq_true, if_false]
      omega

theorem countP_key_eq_one (acc : List MonthSummary) (y mo : Nat)
    (hnd : (acc.map (fun s => (s.year, s.month))).Nodup)
    (hmem : (y, mo) ∈ acc.map (fun s => (s.year, s.month))) :
    acc.countP (fun s => s.year == y && s.month == mo) = 1 := by
  induction acc with
  | nil => simp at hmem
  | cons a l ih =>
    simp only [List.map_cons, List.nodup_cons] at hnd
    obtain ⟨hna, hnl⟩ := hnd
    rw [List.countP_cons]
    by_cases ha : (a.year == y && a.month == mo) = true
    · have hay : a.year = y ∧ a.month = mo := by simpa using ha
      have hzero : l.countP (fun s => s.year == y && s.month == mo) = 0 := by
        rw [List.countP_eq_zero]
        intro s hs hps
        have hsy : s.year = y ∧ s.month = mo := by simpa using hps
        refine hna (List.mem_map.mpr ⟨s, hs, ?_⟩)
        rw [hsy.1, hsy.2, hay.1, hay.2]
      simp [hzero, ha]
    · have hmem2 : (y, mo) ∈ l.map (fun s => (s.year, s.month)) := by
        rcases List.mem_cons.mp hmem with h | h
        · exfalso
          apply ha
          simp only [Prod.mk.injEq] at h
          simp [h.1, h.2]
        · exact h
      simp [ha, ih hnl hmem2]

theorem addToSummaries_inv (l : List MemoryItem) (m : MemoryItem)
    (acc : List MonthSummary)
    (h1 : (acc.map (fun s => (s.year, s.month))).Nodup)
    (h2 : ∀ y mo, (y, mo) ∈ acc.map (fun s => (s.year, s.month)) ↔
      ∃ x ∈ l, x.year = y ∧ x.month = mo)
    (h3 : ∀ s ∈ acc,
      s.count = l.countP (fun x => x.year == s.year && x.month == s.month))
    (h4 : (acc.map (fun s => s.count)).sum = l.length) :
    ((addToSummaries acc m).map (fun s => (s.year, s.month))).Nodup ∧
    (∀ y mo,
      (y, mo) ∈ (addToSummaries acc m).map (fun s => (s.year, s.month)) ↔
        ∃ x ∈ l ++ [m], x.year = y ∧ x.month = mo) ∧
    (∀ s ∈ addToSummaries acc m,
      s.count =
        (l ++ [m]).countP (fun x => x.year == s.year && x.month == s.month)) ∧
    ((addToSummaries acc m).map (fun s => s.count)).sum =
      (l ++ [m]).length := by
  by_cases hany :
      acc.any (fun s => s.year == m.year && s.month == m.month) = true
  · have hkeys : (addToSummaries acc m).map (fun s => (s.year, s.month)) =
        acc.map (fun s => (s.year, s.month)) := by
      simp only [addToSummaries, hany, if_true, List.map_map]
      refine List.map_congr_left ?_
      intro s hs
      by_cases hps : (s.year == m.year && s.month == m.month) = true <;>
        simp [hps, Function.comp]
    obtain ⟨s0, hs0, hps0⟩ := List.any_eq_true.mp hany
    have hs0key : s0.year = m.year ∧ s0.month = m.month := by simpa using hps0
    have hkeymem : ((m.year, m.month) : Nat × Nat) ∈
        acc.map (fun s => (s.year, s.month)) :=
      List.mem_map.mpr ⟨s0, hs0, by rw [hs0key.1, hs0key.2]⟩
    refine ⟨?_, ?_, ?_, ?_⟩
    · rw [hkeys]; exact h1
    · intro y mo
      rw [hkeys, h2]
      constructor
      · rintro ⟨x, hx, hxy⟩
        exact ⟨x, List.mem_append.mpr (Or.inl hx), hxy⟩
      · rintro ⟨x, hx, hxy⟩
        rcases List.mem_append.mp hx with h | h
        · exact ⟨x, h, hxy⟩
        · simp only [List.mem_singleton] at h
          obtain ⟨x2, hx2, hx2k⟩ := (h2 m.year m.month).mp hkeymem
          have hy : m.year = y := by rw [← h]; exact hxy.1
          have hmo : m.month = mo := by rw [← h]; exact hxy.2
          exact ⟨x2, hx2, hx2k.1.trans hy, hx2k.2.trans hmo⟩
    · intro s2 hs2
      simp only [addToSummaries, hany, if_true] at hs2
      obtain ⟨s, hs, rfl⟩ := List.mem_map.mp hs2
      rw [List.countP_append]
      by_cases hps : (s.year == m.year && s.month == m.month) = true
      · have hk : s.year = m.year ∧ s.month = m.month := by simpa using hps
        have hone :
            [m].countP (fun x => x.year == s.year && x.month == s.month) = 1 := by
          simp [hk.1, hk.2]
        simp only [hps, if_true]
        simp only [hone]
        rw [h3 s hs]
      · have hknot : ¬(s.year = m.year ∧ s.month = m.month) := by
          simpa using hps
        have hzero :
            [m].countP (fun x => x.year == s.year && x.month == s.month) = 0 := by
          simp only [List.countP_cons, List.countP_nil]
          have : ¬(m.year = s.year ∧ m.month = s.month) := by
            intro hcon
            exact hknot ⟨hcon.1.symm, hcon.2.symm⟩
          simp [this]
        simp only [hps, Bool.false_eq_true, if_false]
        simp only [hzero]
        rw [h3 s hs]
        omega
    · simp only [addToSummaries, hany, if_true]
      rw [sum_map_count_update, h4,
        countP_key_eq_one acc m.year m.month h1 hkeymem]
      simp
  · have hnone : ∀ s ∈ acc,
        (s.year == m.year && s.month == m.month) = false := by
      intro s hs
      by_contra hc
      exact hany (List.any_eq_true.mpr ⟨s, hs, Bool.not_eq_false _ ▸ hc⟩)
    have hkeynot : ((m.year, m.month) : Nat × Nat) ∉
        acc.map (fun s => (s.year, s.month)) := by
      intro hmem
      obtain ⟨s, hs, hkey⟩ := List.mem_map.mp hmem
      have hf := hnone s hs
      simp only [Prod.mk.injEq] at hkey
      simp [hkey.1, hkey.2] at hf
    have hupd : addToSummaries acc m =
        acc ++ [{ year := m.year, month := m.month, count := 1 }] := by
      simp [addToSummaries, hany]
    refine ⟨?_, ?_, ?_, ?_⟩
    · rw [hupd]
      simp only [List.map_append, List.map_cons, List.map_nil]
      refine List.Nodup.append h1 (by simp) ?_
      intro p hp hp2
      simp only [List.mem_singleton] at hp2
      subst hp2
      exact hkeynot hp
    · intro y mo
      rw [hupd]
      simp only [List.map_append, List.map_cons, List.map_nil,
        List.mem_append, List.mem_singleton, Prod.mk.injEq]
      constructor
      · rintro (h | ⟨hy, hmo⟩)
        · obtain ⟨x, hx, hxy⟩ := (h2 y mo).mp h
          exact ⟨x, Or.inl hx, hxy⟩
        · exact ⟨m, Or.inr rfl, hy.symm, hmo.symm⟩
      · rintro ⟨x, hx | hx, hxy, hxmo⟩
        · exact Or.inl ((h2 y mo).mpr ⟨x, hx, hxy, hxmo⟩)
        · subst hx
          exact Or.inr ⟨hxy.symm, hxmo.symm⟩
    · intro s2 hs2
      rw [hupd] at hs2
      rcases List.mem_append.mp hs2 with hs | hs
      · have hzero :
            [m].countP (fun x => x.year == s2.year && x.month == s2.month) =
              0 := by
          simp only [List.countP_cons, List.countP_nil]
          have hf := hnone s2 hs
          have : ¬(m.year = s2.year ∧ m.month = s2.month) := by
            intro hcon
            simp [hcon.1.symm, hcon.2.symm] at hf
          simp [this]
        rw [List.countP_append, hzero, h3 s2 hs]
        omega
      · simp only [List.mem_singleton] at hs
        subst hs
        have hzero :
            l.countP (fun x => x.year == m.year && x.month == m.month) = 0 := by
          rw [List.countP_eq_zero]
          intro x hx hpx
          have hxk : x.year = m.year ∧ x.month = m.month := by simpa using hpx
          exact hkeynot ((h2 m.year m.month).mpr ⟨x, hx, hxk⟩)
        simp only [List.countP_append, hzero]
        simp
    · rw [hupd]
      simp only [List.map_append, List.map_cons, List.map_nil,
        List.sum_append, List.sum_cons, List.sum_nil]
      simp [h4]

theorem foldl_addToSummaries_spec (memories : List MemoryItem) :
    ((memories.foldl addToSummaries []).map
      (fun s => (s.year, s.month))).Nodup ∧
    (∀ y mo, (y, mo) ∈ (memories.foldl addToSummaries []).map
        (fun s => (s.year, s.month)) ↔
      ∃ x ∈ memories, x.year = y ∧ x.month = mo) ∧
    (∀ s ∈ memories.foldl addToSummaries [],
      s.count =
        memories.countP (fun x => x.year == s.year && x.month == s.month)) ∧
    ((memories.foldl addToSummaries []).map (fun s => s.count)).sum =
      memories.length := by
  induction memories using List.reverseRecOn with
  | nil => simp
  | append_singleton l m ih =>
    rw [List.foldl_append]
    simp only [List.foldl_cons, List.foldl_nil]
    obtain ⟨i1, i2, i3, i4⟩ := ih
    exact addToSummaries_inv l m _ i1 i2 i3 i4

theorem monthSummaryLe_trans (a b c : MonthSummary)
    (hab : monthSummaryLe a b = true) (hbc : monthSummaryLe b c = true) :
    monthSummaryLe a c = true := by
  simp only [monthSummaryLe, decide_eq_true_eq] at hab hbc ⊢
  omega

theorem monthSummaryLe_total (a b : MonthSummary) :
    (monthSummaryLe a b || monthSummaryLe b a) = true := by
  simp only [monthSummaryLe, Bool.or_eq_true, decide_eq_true_eq]
  omega

/-- C10: month summaries conserve counts and are ordered: exactly one summary
per distinct (year, month) pair occurring in the list, each count equals the
number of memories of that month, the counts sum to the list length, and the
summaries are sorted by year then month, both descending. -/
theorem monthSummariesConserveCounts (memories : List MemoryItem) :
    ((generateMonthSummaries memories).map
      (fun s => (s.year, s.month))).Nodup ∧
    (∀ y mo, (y, mo) ∈ (generateMonthSummaries memories).map
        (fun s => (s.year, s.month)) ↔
      ∃ x ∈ memories, x.year = y ∧ x.month = mo) ∧
    (∀ s ∈ generateMonthSummaries memories,
      s.count =
        memories.countP (fun x => x.year == s.year && x.month == s.month)) ∧
    ((generateMonthSummaries memories).map (fun s => s.count)).sum =
      memories.length ∧
    List.Pairwise
      (fun a b => b.year < a.year ∨ (a.year = b.year ∧ b.month ≤ a.month))
      (generateMonthSummaries memories) := by
  obtain ⟨i1, i2, i3, i4⟩ := foldl_addToSummaries_spec memories
  have hperm : (generateMonthSummaries memories).Perm
      (memories.foldl addToSummaries []) :=
    List.mergeSort_perm (memories.foldl addToSummaries []) monthSummaryLe
  refine ⟨?_, ?_, ?_, ?_, ?_⟩
  · exact ((hperm.map (fun s => (s.year, s.month))).nodup_iff).mpr i1
  · intro y mo
    rw [(hperm.map (fun s => (s.year, s.month))).mem_iff]
    exact i2 y mo
  · intro s hs
    exact i3 s (hperm.mem_iff.mp hs)
  · rw [(hperm.map (fun s => s.count)).sum_eq]
    exact i4
  · have hsorted : List.Pairwise (fun a b => monthSummaryLe a b = true)
        (generateMonthSummaries memories) :=
      List.sorted_mergeSort monthSummaryLe_trans monthSummaryLe_total
        (memories.foldl addToSummaries [])
    refine hsorted.imp ?_
    intro a b hab
    simpa [monthSummaryLe, decide_eq_true_eq] using hab

/-- Witness for C10: in the concrete four-memory list, the February 2026
summary counts exactly its two memories. -/
theorem monthSummariesConserveCountsWitness :
    ({ year := 2026, month := 2, count := 2 } : MonthSummary).count =
      sampleMemories.countP (fun x =>
        x.year == ({ year := 2026, month := 2, count := 2 } :
          MonthSummary).year &&
        x.month == ({ year := 2026, month := 2, count := 2 } :
          MonthSummary).month) :=
  (monthSummariesConserveCounts sampleMemories).2.2.1
    { year := 2026, month := 2, count := 2 }
    ((List.mergeSort_perm (sampleMemories.foldl addToSummaries [])
      monthSummaryLe).mem_iff.mpr (by decide))
